/-
Verification of the message-editing / version-branching core of the Goose
desktop client (message version utilities, active-path resolver, and the
message persistence adapter).

The TypeScript sources are shallowly embedded:
  * optional object fields become `Option` fields (a JS `undefined` field is
    `none`);
  * JS truthiness tests are modelled explicitly (`optStrTruthy` for optional
    strings, `jtruthy` for JSON values);
  * `Date.now()` is passed in as an explicit `now : Int` parameter;
  * `JSON.stringify`/`JSON.parse` are modelled at the level of the JSON value
    tree (`Json` below): `stringify` of a record is its JSON image, and
    `parse ∘ stringify` is the identity on JSON values, so the string layer
    itself is elided.
-/
import Mathlib

/-- One content block of a message (`MessageContent` in `types/message.ts`);
the version model treats content blocks as opaque payloads, and the shape
used throughout the sources is `{ type: 'text', text: … }`. -/
structure MessageContent where
  type : String
  text : String
deriving Repr, DecidableEq

/-- Embedding of `MessageVersion` from `types/message.ts`: one snapshot in a message's
edit history. -/
structure MessageVersion where
  versionNumber : Int
  content : List MessageContent
  timestamp : Int
  childMessageIds : List String
deriving Repr, DecidableEq

/-- Embedding of `Message` from `types/message.ts`, restricted to the fields the version
model touches.  Optional fields are `Option`; `none` models an absent
(`undefined`) field. -/
structure Message where
  id : Option String := none
  role : String
  created : Int
  content : List MessageContent
  display : Option Bool := none
  sendToLLM : Option Bool := none
  versions : Option (List MessageVersion) := none
  currentVersionIndex : Option Int := none
  parentMessageId : Option String := none
deriving Repr, DecidableEq

/-- JS truthiness of an optional string field: `undefined` and the empty
string are falsy, every other string is truthy. -/
def optStrTruthy : Option String → Bool
  | none => false
  | some s => s ≠ ""

/-- Embedding of `createNewVersion` from `utils/messageVersionUtils.ts`.  `now` stands for
`Math.floor(Date.now() / 1000)`.  The two `match`es on `message.versions`
mirror the source's truthiness tests on `message.versions` (a JS array is
always truthy, so presence and truthiness coincide), and
`(message.versions?.length || 0) + 2` is the `+ 2` version number computed
by the source. -/
def createNewVersion (message : Message) (newContent : List MessageContent)
    (now : Int) : Message :=
  let firstVersion : MessageVersion :=
    { versionNumber := 1
      content := message.content
      timestamp := message.created
      childMessageIds := [] }
  let newVersion : MessageVersion :=
    { versionNumber := (match message.versions with
        | some vs => (vs.length : Int)
        | none => 0) + 2
      content := newContent
      timestamp := now
      childMessageIds := [] }
  { message with
    content := newContent
    versions := some (match message.versions with
      | some vs => vs ++ [newVersion]
      | none => [firstVersion, newVersion])
    currentVersionIndex := some (match message.versions with
      | some vs => (vs.length : Int) + 1
      | none => 1) }

/-- Embedding of `switchVersion` from `utils/messageVersionUtils.ts`.  The guard mirrors
`!message.versions || versionIndex < 0 || versionIndex >= versions.length`. -/
def switchVersion (message : Message) (versionIndex : Int) : Message :=
  match message.versions with
  | none => message
  | some vs =>
    if h : 0 ≤ versionIndex ∧ versionIndex < (vs.length : Int) then
      have hlt : versionIndex.toNat < vs.length := by omega
      let targetVersion := vs.get ⟨versionIndex.toNat, hlt⟩
      { message with
        content := targetVersion.content
        currentVersionIndex := some versionIndex }
    else message

/-- Embedding of `computeActiveVersionPath` from `utils/messageVersionUtils.ts` (the
source function takes only the transcript; it implements the default mode).
The push condition mirrors `message.display !== false && message.id`, where
the second conjunct is a JS truthiness test on the optional id. -/
def computeActiveVersionPath (messages : List Message) : List String :=
  messages.filterMap fun message =>
    if (message.display != some false) && optStrTruthy message.id then
      message.id
    else none

/-- Helper for `hideDownstreamMessages`: the `messages.map((message, index) => …)`
body, carrying the running index `i`. -/
def hideFrom (editedMessageIndex : Nat) : Nat → List Message → List Message
  | _, [] => []
  | i, message :: rest =>
    (if editedMessageIndex < i then { message with display := some false }
     else message) :: hideFrom editedMessageIndex (i + 1) rest

/-- Embedding of `hideDownstreamMessages` from `utils/messageVersionUtils.ts`. -/
def hideDownstreamMessages (editedMessageId : String)
    (messages : List Message) : List Message :=
  match messages.findIdx? (fun msg => msg.id == some editedMessageId) with
  | none => messages
  | some editedMessageIndex => hideFrom editedMessageIndex 0 messages

/-- Embedding of `hasMultipleVersions` from `utils/messageVersionUtils.ts`. -/
def hasMultipleVersions (message : Message) : Bool :=
  (match message.versions with
   | some vs => vs.length
   | none => 0) > 1

/-- Embedding of `hasVersionData` from `utils/messagePersistence.ts`:
`!!(message.versions || message.currentVersionIndex !== undefined ||
message.parentMessageId)`.  A JS array is always truthy, so the `versions`
disjunct is a presence test; the `parentMessageId` disjunct is a string
truthiness test (an empty string is falsy). -/
def hasVersionData (message : Message) : Bool :=
  message.versions.isSome || message.currentVersionIndex.isSome ||
    optStrTruthy message.parentMessageId

/-- Embedding of `migrateLegacyMessage` from `utils/messagePersistence.ts`. -/
def migrateLegacyMessage (message : Message) : Message :=
  if hasVersionData message then message
  else
    { message with
      versions := some [{ versionNumber := 1
                          content := message.content
                          timestamp := message.created
                          childMessageIds := [] }]
      currentVersionIndex := some 0 }

/-- JSON value trees, the codomain of `JSON.parse`.  `JSON.stringify` of a
record is identified with its JSON value tree (the printed string itself
carries no extra information, since `parse ∘ stringify` is the identity on
JSON values). -/
inductive Json where
  | null : Json
  | bool : Bool → Json
  | num : Int → Json
  | str : String → Json
  | arr : List Json → Json
  | obj : List (String × Json) → Json

/-- First value bound to `key` in a JSON object's field list. -/
def lookupField (key : String) : List (String × Json) → Option Json
  | [] => none
  | (k, v) :: rest => if k = key then some v else lookupField key rest

/-- JS property read `j[key]`: `none` models `undefined` (reads on
primitives also yield `undefined`; the one throwing case, a read on `null`,
is handled explicitly by each caller). -/
def jget (key : String) : Json → Option Json
  | Json.obj fields => lookupField key fields
  | _ => none

/-- JS truthiness of a JSON value (arrays and objects are always truthy). -/
def jtruthy : Json → Bool
  | Json.null => false
  | Json.bool b => b
  | Json.num n => n ≠ 0
  | Json.str s => s ≠ ""
  | Json.arr _ => true
  | Json.obj _ => true

/-- JS truthiness of a property read (`undefined` is falsy). -/
def optTruthy : Option Json → Bool
  | none => false
  | some j => jtruthy j

/-- Whether a JSON value is an array (`Array.isArray`). -/
def jisArray : Json → Bool
  | Json.arr _ => true
  | _ => false

/-- JS property assignment on a field list: replaces the first binding of
`key`, or appends one when the key is absent. -/
def setField (key : String) (val : Json) : List (String × Json) → List (String × Json)
  | [] => [(key, val)]
  | (k, v) :: rest =>
    if k = key then (k, val) :: rest else (k, v) :: setField key val rest

/-- JS property assignment `j[key] = val` on a JSON value (only objects are
ever assigned to by the embedded code). -/
def jsetField (key : String) (val : Json) : Json → Json
  | Json.obj fields => Json.obj (setField key val fields)
  | j => j

/-- Model of `Array.prototype.map` with exception propagation: JS `map` aborts the
whole call when the callback throws, which `none` models. -/
def jsArrayMap (f : Json → Option Json) : List Json → Option (List Json)
  | [] => some []
  | x :: xs =>
    match f x with
    | none => none
    | some y => (jsArrayMap f xs).map (y :: ·)

/-- Embedding of `validateMessageVersion` from `utils/messagePersistence.ts`.  Its input
is an untyped (`any`) version record; a `null` record makes the property
reads throw (`none`).  `now` stands for `Date.now()`. -/
def validateMessageVersion (now : Int) (version : Json) : Option Json :=
  match version with
  | Json.null => none
  | v =>
    some (Json.obj
      [("versionNumber",
        match jget "versionNumber" v with
        | some jv => if jtruthy jv then jv else Json.num 1
        | none => Json.num 1),
       ("content",
        match jget "content" v with
        | some (Json.arr xs) => Json.arr xs
        | _ => Json.arr []),
       ("timestamp",
        match jget "timestamp" v with
        | some jt => if jtruthy jt then jt else Json.num now
        | none => Json.num now),
       ("childMessageIds",
        match jget "childMessageIds" v with
        | some (Json.arr xs) => Json.arr xs
        | _ => Json.arr [])])

/-- The `if (message.versions) { message.versions =
message.versions.map(validateMessageVersion); } return message;` block
shared by `deserializeMessage` and `deserializeMessages`.  A truthy
non-array `versions` has no `.map`, so the call throws (`none`). -/
def validateVersionsField (now : Int) (j : Json) : Option Json :=
  match jget "versions" j with
  | some jv =>
    if jtruthy jv then
      match jv with
      | Json.arr xs =>
        (jsArrayMap (validateMessageVersion now) xs).map
          (fun ys => jsetField "versions" (Json.arr ys) j)
      | _ => none
    else some j
  | none => some j

/-- Embedding of `deserializeMessage` from `utils/messagePersistence.ts`, modelled on the
parsed JSON value (the `JSON.parse` string layer is elided; a parse failure
on unparsable text is outside this model).  Reading `.versions` on a parsed
`null` throws (`none`); the early return mirrors the source's
`!message.versions && !message.currentVersionIndex &&
!message.parentMessageId` truthiness guard. -/
def deserializeMessage (now : Int) (j : Json) : Option Json :=
  match j with
  | Json.null => none
  | j =>
    if optTruthy (jget "versions" j) = false ∧
        optTruthy (jget "currentVersionIndex" j) = false ∧
        optTruthy (jget "parentMessageId" j) = false then
      some j
    else validateVersionsField now j

/-- Encoders for `JSON.stringify` images;
`encodeContent` is the JSON image of one content block. -/
def encodeContent (c : MessageContent) : Json :=
  Json.obj [("type", Json.str c.type), ("text", Json.str c.text)]

/-- JSON image of a `MessageVersion` record (field order is the literal
order used throughout the sources). -/
def encodeVersion (v : MessageVersion) : Json :=
  Json.obj
    [("versionNumber", Json.num v.versionNumber),
     ("content", Json.arr (v.content.map encodeContent)),
     ("timestamp", Json.num v.timestamp),
     ("childMessageIds", Json.arr (v.childMessageIds.map Json.str))]

/-- JSON image of an optional field: an `undefined` field is dropped by
`JSON.stringify`. -/
def optField (name : String) (o : Option Json) : List (String × Json) :=
  match o with
  | some j => [(name, j)]
  | none => []

/-- Field list of the JSON image of a `Message` record. -/
def encodeFields (m : Message) : List (String × Json) :=
  optField "id" (m.id.map Json.str) ++
    [("role", Json.str m.role),
     ("created", Json.num m.created),
     ("content", Json.arr (m.content.map encodeContent))] ++
    optField "display" (m.display.map Json.bool) ++
    optField "sendToLLM" (m.sendToLLM.map Json.bool) ++
    optField "versions"
      (m.versions.map (fun vs => Json.arr (vs.map encodeVersion))) ++
    optField "currentVersionIndex" (m.currentVersionIndex.map Json.num) ++
    optField "parentMessageId" (m.parentMessageId.map Json.str)

/-- JSON image of a `Message` record. -/
def encodeMessage (m : Message) : Json :=
  Json.obj (encodeFields m)

/-- Embedding of `serializeMessage` from `utils/messagePersistence.ts`:
`JSON.stringify(message)`, identified with the message's JSON value tree. -/
def serializeMessage (message : Message) : Json :=
  encodeMessage message

/-- Embedding of `serializeMessages` from `utils/messagePersistence.ts`:
`JSON.stringify(messages)`. -/
def serializeMessages (messages : List Message) : Json :=
  Json.arr (messages.map encodeMessage)

/-- The `messages.map(message => …)` callback of `deserializeMessages`:
reading `.versions` on a `null` element throws; otherwise the shared
versions-validation block runs. -/
def deserializeMessagesBody (now : Int) (m : Json) : Option Json :=
  match m with
  | Json.null => none
  | m => validateVersionsField now m

/-- Embedding of `deserializeMessages` from `utils/messagePersistence.ts`.  `.map` on a
non-array parse result throws. -/
def deserializeMessages (now : Int) (j : Json) : Option (List Json) :=
  match j with
  | Json.arr ms => jsArrayMap (deserializeMessagesBody now) ms
  | _ => none

/-- Well-formedness of a message in the sense of the round-trip contract:
an id is present, and every version record has a truthy (non-zero)
`versionNumber` and `timestamp` (its `content` and `childMessageIds` are
array-valued by construction in the typed model). -/
def wellFormedMessage (m : Message) : Prop :=
  m.id ≠ none ∧
    match m.versions with
    | none => True
    | some vs => ∀ v ∈ vs, v.versionNumber ≠ 0 ∧ v.timestamp ≠ 0

/-- Modelled from the spec: the branch mode of
`computeActiveVersionPath(transcript, editedMessageId?, selectedVersionIndex?)`
(spec §4.2).  The source `computeActiveVersionPath` in
`utils/messageVersionUtils.ts` takes only the transcript and implements the
default mode — its comment defers the "full branching logic" — so the
branch mode is missing from the sources and is modelled from the spec's
steps 1–4: validate that the edited id exists and the selected version
index is legal, falling back to default mode on failure; include, in
transcript order, every message up to and including the edited one whose
`display !== false`; then append the selected version's `childMessageIds`
filtered to ids that still exist in the transcript with `display !== false`
and are not already present in the path. -/
def computeActiveVersionPathSpec (messages : List Message)
    (editedMessageId : Option String) (selectedVersionIndex : Option Int) :
    List String :=
  match editedMessageId, selectedVersionIndex with
  | some eid, some si =>
    match messages.findIdx? (fun msg => msg.id == some eid) with
    | none => computeActiveVersionPath messages
    | some k =>
      match messages[k]? with
      | none => computeActiveVersionPath messages
      | some edited =>
        match edited.versions with
        | none => computeActiveVersionPath messages
        | some vs =>
          if h : 0 ≤ si ∧ si < (vs.length : Int) then
            have hlt : si.toNat < vs.length := by omega
            let initialPath :=
              (messages.take (k + 1)).filterMap
                (fun m => if m.display != some false then m.id else none)
            (vs.get ⟨si.toNat, hlt⟩).childMessageIds.foldl
              (fun path cid =>
                if (messages.any fun m =>
                      m.id == some cid && m.display != some false) &&
                    !(path.contains cid) then
                  path ++ [cid]
                else path)
              initialPath
          else computeActiveVersionPath messages
  | _, _ => computeActiveVersionPath messages

/-- Modelled from the spec: step 3 of branch mode in isolation — the
selected version's `childMessageIds`, in recorded order, filtered to ids
that still exist in the transcript with `display !== false` and are not
already present in the path.  The path argument grows as ids are appended,
so an appended child id also dedupes later duplicates of itself. -/
def filterChildIds (messages : List Message) :
    List String → List String → List String
  | [], _ => []
  | cid :: rest, path =>
    if (messages.any fun m =>
          m.id == some cid && m.display != some false) &&
        !(path.contains cid) then
      cid :: filterChildIds messages rest (path ++ [cid])
    else filterChildIds messages rest path

/-- Sample transcript element used by concrete witnesses. -/
def msgA : Message :=
  { id := some "m1", role := "user", created := 10,
    content := [⟨"text", "Hi"⟩] }

/-- Sample transcript element used by concrete witnesses. -/
def msgB : Message :=
  { id := some "m2", role := "assistant", created := 11,
    content := [⟨"text", "Yo"⟩] }

/-- Sample transcript element used by concrete witnesses. -/
def msgC : Message :=
  { id := some "m3", role := "user", created := 12,
    content := [⟨"text", "Ok"⟩] }

/-- Sample transcript element used by concrete witnesses. -/
def msgD : Message :=
  { id := some "m4", role := "assistant", created := 13,
    content := [⟨"text", "Hm"⟩] }

/-- Sample message with two well-formed versions, used by concrete
witnesses. -/
def msgV : Message :=
  { msgA with
    versions := some [⟨1, [⟨"text", "Hi"⟩], 10, []⟩,
                      ⟨2, [⟨"text", "Hey"⟩], 20, ["m2"]⟩]
    currentVersionIndex := some 1 }

/-- Sample message carrying a version record with falsy (zero)
`versionNumber` and `timestamp`, used to exhibit the normalizing
(non-identity) behaviour of deserialization. -/
def msgBadVersion : Message :=
  { msgA with
    versions := some [⟨0, [], 0, []⟩]
    currentVersionIndex := some 0 }

/-- C4: for every message without prior versions and every new content,
`createNewVersion` yields two versions — the preserved original as version
1 and the new content as version 2 — with the new content mirrored into
`content` and `currentVersionIndex = 1`. -/
theorem createNewVersion_no_prior_versions (m : Message)
    (c : List MessageContent) (now : Int) (h : m.versions = none) :
    ∃ v0 v1, (createNewVersion m c now).versions = some [v0, v1] ∧
      v0.versionNumber = 1 ∧ v0.content = m.content ∧
      v1.versionNumber = 2 ∧ v1.content = c ∧
      (createNewVersion m c now).content = c ∧
      (createNewVersion m c now).currentVersionIndex = some 1 := by
  have hv : (createNewVersion m c now).versions =
      some [⟨1, m.content, m.created, []⟩, ⟨2, c, now, []⟩] := by
    simp [createNewVersion, h]
  exact ⟨_, _, hv, rfl, rfl, rfl, rfl, rfl, by simp [createNewVersion, h]⟩

/-- Witness for C4 at a concrete fresh message. -/
theorem createNewVersion_no_prior_versions_witness :
    ∃ v0 v1,
      (createNewVersion msgA [⟨"text", "Hello"⟩] 99).versions =
        some [v0, v1] ∧
      v0.versionNumber = 1 ∧ v0.content = msgA.content ∧
      v1.versionNumber = 2 ∧ v1.content = [⟨"text", "Hello"⟩] ∧
      (createNewVersion msgA [⟨"text", "Hello"⟩] 99).content =
        [⟨"text", "Hello"⟩] ∧
      (createNewVersion msgA [⟨"text", "Hello"⟩] 99).currentVersionIndex =
        some 1 :=
  createNewVersion_no_prior_versions msgA [⟨"text", "Hello"⟩] 99 rfl

/-- C5: `switchVersion` with a negative index, an index at or past the end
of `versions`, or no `versions` at all, returns the input message
unchanged. -/
theorem switchVersion_invalid_index_noop (m : Message) (i : Int)
    (h : i < 0 ∨ m.versions = none ∨
      ∃ vs, m.versions = some vs ∧ (vs.length : Int) ≤ i) :
    switchVersion m i = m := by
  cases hv : m.versions with
  | none => simp [switchVersion, hv]
  | some vs =>
    have hcond : ¬(0 ≤ i ∧ i < (vs.length : Int)) := by
      rcases h with h | h | ⟨vs2, hv2, h⟩
      · omega
      · rw [hv] at h; cases h
      · rw [hv] at hv2
        cases hv2
        omega
    simp [switchVersion, hv, hcond]

/-- Witness for C5: index 5 on a message with 2 versions is a no-op. -/
theorem switchVersion_invalid_index_noop_witness :
    switchVersion
      { msgA with
        versions := some [⟨1, [⟨"text", "Hi"⟩], 10, []⟩,
                          ⟨2, [⟨"text", "Hey"⟩], 20, []⟩]
        currentVersionIndex := some 1 } 5 =
      { msgA with
        versions := some [⟨1, [⟨"text", "Hi"⟩], 10, []⟩,
                          ⟨2, [⟨"text", "Hey"⟩], 20, []⟩]
        currentVersionIndex := some 1 } :=
  switchVersion_invalid_index_noop _ 5
    (Or.inr (Or.inr ⟨_, rfl, by decide⟩))

/-- C1 (code bug): on a message that already has 1 version,
`createNewVersion` appends a version numbered 3 (instead of 2, breaking the
contiguous 1-based numbering contract) and sets `currentVersionIndex` to 2
(one past the index of the newly appended version, and out of range for the
2-element `versions` array).  The repository's own unit test
(`messageVersionUtils.test.ts`, "should add a new version to a message with
existing versions") expects the contiguous numbering the claim states. -/
theorem createNewVersion_existing_versions_off_by_one :
    (createNewVersion
        { id := some "m1", role := "user", created := 100,
          content := [⟨"text", "Hi"⟩],
          versions := some [⟨1, [⟨"text", "Hi"⟩], 100, []⟩],
          currentVersionIndex := some 0 }
        [⟨"text", "Hello"⟩] 200).versions =
      some [⟨1, [⟨"text", "Hi"⟩], 100, []⟩,
            ⟨3, [⟨"text", "Hello"⟩], 200, []⟩] ∧
    (createNewVersion
        { id := some "m1", role := "user", created := 100,
          content := [⟨"text", "Hi"⟩],
          versions := some [⟨1, [⟨"text", "Hi"⟩], 100, []⟩],
          currentVersionIndex := some 0 }
        [⟨"text", "Hello"⟩] 200).currentVersionIndex = some 2 := by
  decide

/-- C3 counterexample: a message whose `id` is the (defined) empty string
and whose `display` is unset is nevertheless excluded from the default-mode
output, because the source tests `message.id` for truthiness, not for
presence; the claim demands that every message with a defined id and
`display !== false` contribute its id. -/
theorem computeActiveVersionPath_empty_id_counterexample :
    computeActiveVersionPath
        [{ id := some "", role := "user", created := 0, content := [] }] ≠
      [""] ∧
    computeActiveVersionPath
        [{ id := some "", role := "user", created := 0, content := [] }] =
      [] ∧
    ({ id := some "", role := "user", created := 0, content := [] } :
      Message).id ≠ none ∧
    ({ id := some "", role := "user", created := 0, content := [] } :
      Message).display ≠ some false := by
  decide

/-- C3 amended: in default mode `computeActiveVersionPath` returns exactly
the ids, in transcript order, of the messages whose `display !== false` and
whose id is defined and non-empty (truthy); messages with `display ===
false`, without an id, or with an empty-string id are excluded. -/
theorem computeActiveVersionPath_default_mode (messages : List Message) :
    computeActiveVersionPath messages =
      (messages.filter
        (fun m => (m.display != some false) && optStrTruthy m.id)).filterMap
        Message.id ∧
    ∀ s ∈ computeActiveVersionPath messages,
      s ≠ "" ∧ ∃ m ∈ messages, m.id = some s ∧ m.display ≠ some false := by
  constructor
  · rw [computeActiveVersionPath, List.filterMap_filter]
  · intro s hs
    rw [computeActiveVersionPath, List.mem_filterMap] at hs
    obtain ⟨m, hm, hf⟩ := hs
    by_cases hcond : ((m.display != some false) && optStrTruthy m.id) = true
    · rw [if_pos hcond] at hf
      simp only [Bool.and_eq_true, bne_iff_ne, ne_eq] at hcond
      refine ⟨?_, m, hm, hf, hcond.1⟩
      intro hempty
      rw [hf, hempty] at hcond
      simp [optStrTruthy] at hcond
    · rw [if_neg hcond] at hf
      cases hf

/-- Witness for C3's amended theorem on a concrete two-message transcript
(one visible message, one hidden). -/
theorem computeActiveVersionPath_default_mode_witness :
    computeActiveVersionPath [msgA, { msgB with display := some false }] =
      ([msgA, { msgB with display := some false }].filter
        (fun m => (m.display != some false) && optStrTruthy m.id)).filterMap
        Message.id ∧
    ("m1" ≠ "" ∧ ∃ m ∈ [msgA, { msgB with display := some false }],
      m.id = some "m1" ∧ m.display ≠ some false) :=
  ⟨(computeActiveVersionPath_default_mode
      [msgA, { msgB with display := some false }]).1,
   (computeActiveVersionPath_default_mode
      [msgA, { msgB with display := some false }]).2 "m1" (by decide)⟩

/-- C9 counterexample: a message whose `parentMessageId` is present but
equal to the empty string (and whose other version fields are absent) makes
`hasVersionData` return `false`, because the source tests
`message.parentMessageId` for truthiness; the claim demands `true` whenever
the field is present. -/
theorem hasVersionData_empty_parent_id_counterexample :
    hasVersionData
        { id := some "m1", role := "user", created := 0, content := [],
          parentMessageId := some "" } = false ∧
    ({ id := some "m1", role := "user", created := 0, content := [],
        parentMessageId := some "" } : Message).parentMessageId ≠ none := by
  decide

/-- C9 amended: `hasVersionData` returns `true` iff `versions` is present,
or `currentVersionIndex` is present (not `undefined`, including falsy
values such as `0`), or `parentMessageId` is present and non-empty (a
present-but-empty `parentMessageId` does not count). -/
theorem hasVersionData_iff (m : Message) :
    hasVersionData m = true ↔
      m.versions ≠ none ∨ m.currentVersionIndex ≠ none ∨
        ∃ s, m.parentMessageId = some s ∧ s ≠ "" := by
  rcases m with ⟨id, role, created, content, display, sendToLLM, versions,
    cvi, pmi⟩
  cases versions <;> cases cvi <;> cases pmi <;>
    simp [hasVersionData, optStrTruthy]

/-- A message that already carries version data is left untouched by
`migrateLegacyMessage`. -/
theorem migrateLegacyMessage_of_hasVersionData (m : Message)
    (h : hasVersionData m = true) : migrateLegacyMessage m = m := by
  simp [migrateLegacyMessage, h]

/-- C7: `migrateLegacyMessage` is idempotent; it returns the message
unchanged when `hasVersionData` holds, and otherwise adds exactly the
synthesized initial version (`versionNumber` 1, the current content, the
`created` timestamp, no child ids) plus `currentVersionIndex = 0`,
preserving every other field (the record update touches only `versions` and
`currentVersionIndex`). -/
theorem migrateLegacyMessage_idempotent_lossless (m : Message) :
    migrateLegacyMessage (migrateLegacyMessage m) = migrateLegacyMessage m ∧
    (hasVersionData m = true → migrateLegacyMessage m = m) ∧
    (hasVersionData m = false →
      migrateLegacyMessage m =
        { m with
          versions := some [⟨1, m.content, m.created, []⟩]
          currentVersionIndex := some 0 }) := by
  by_cases h : hasVersionData m = true
  · have h1 : migrateLegacyMessage m = m := by
      simp [migrateLegacyMessage, h]
    refine ⟨?_, fun _ => h1, fun hf => by rw [h] at hf; cases hf⟩
    rw [h1, h1]
  · have h1 : migrateLegacyMessage m =
        { m with
          versions := some [⟨1, m.content, m.created, []⟩]
          currentVersionIndex := some 0 } := by
      simp [migrateLegacyMessage, h]
    have h2 : hasVersionData (migrateLegacyMessage m) = true := by
      rw [h1]; simp [hasVersionData]
    refine ⟨?_, ?_, fun _ => h1⟩
    · exact migrateLegacyMessage_of_hasVersionData _ h2
    · intro ht
      exact absurd ht h

/-- Witness for C7 at a concrete legacy message. -/
theorem migrateLegacyMessage_idempotent_lossless_witness :
    migrateLegacyMessage (migrateLegacyMessage msgA) =
      migrateLegacyMessage msgA ∧
    migrateLegacyMessage msgA =
      { msgA with
        versions := some [⟨1, msgA.content, msgA.created, []⟩]
        currentVersionIndex := some 0 } :=
  ⟨(migrateLegacyMessage_idempotent_lossless msgA).1,
   (migrateLegacyMessage_idempotent_lossless msgA).2.2 (by decide)⟩

/-- The `hideFrom` helper preserves the length of the transcript. -/
theorem hideFrom_length (k : Nat) :
    ∀ (i : Nat) (l : List Message), (hideFrom k i l).length = l.length := by
  intro i l
  induction l generalizing i with
  | nil => rfl
  | cons m rest ih => simp [hideFrom, ih]

/-- Element-wise description of `hideFrom`: the element at offset `j` is
hidden exactly when its absolute position `i + j` is past the edited
index. -/
theorem hideFrom_getElem (k : Nat) :
    ∀ (l : List Message) (i j : Nat) (hj : j < l.length)
      (hj2 : j < (hideFrom k i l).length),
      (hideFrom k i l)[j] =
        if k < i + j then { l[j] with display := some false } else l[j] := by
  intro l
  induction l with
  | nil => intro i j hj; exact absurd hj (Nat.not_lt_zero j)
  | cons m rest ih =>
    intro i j hj hj2
    cases j with
    | zero => simp [hideFrom]
    | succ j =>
      have hj' : j < rest.length := by simpa using hj
      have hj2' : j < (hideFrom k (i + 1) rest).length := by
        rw [hideFrom_length]; exact hj'
      simp only [hideFrom, List.getElem_cons_succ]
      rw [ih (i + 1) j hj' hj2']
      by_cases hc : k < i + (j + 1)
      · rw [if_pos (by omega), if_pos hc]
      · rw [if_neg (by omega), if_neg hc]

/-- C6: `hideDownstreamMessages` leaves the transcript unchanged when the
edited id does not occur; when position `k` holds the first occurrence of
the edited id, the result has the same length, every message at a position
`≤ k` is untouched, and every message at a position `> k` is the same
message with `display` set to `false`. -/
theorem hideDownstreamMessages_spec (eid : String)
    (messages : List Message) :
    ((∀ m ∈ messages, m.id ≠ some eid) →
      hideDownstreamMessages eid messages = messages) ∧
    ∀ k (hk : k < messages.length),
      messages[k].id = some eid →
      (∀ i (hi : i < messages.length), i < k →
        messages[i].id ≠ some eid) →
      (hideDownstreamMessages eid messages).length = messages.length ∧
      ∀ j (hj : j < messages.length)
        (hj2 : j < (hideDownstreamMessages eid messages).length),
        (j ≤ k → (hideDownstreamMessages eid messages)[j] = messages[j]) ∧
        (k < j → (hideDownstreamMessages eid messages)[j] =
          { messages[j] with display := some false }) := by
  constructor
  · intro hnone
    have hfind : messages.findIdx? (fun msg => msg.id == some eid) = none := by
      rw [List.findIdx?_eq_none_iff]
      intro m hm
      simp [hnone m hm]
    simp [hideDownstreamMessages, hfind]
  · intro k hk hkid hfirst
    have hfind : messages.findIdx? (fun msg => msg.id == some eid) =
        some k := by
      rw [List.findIdx?_eq_some_iff_findIdx_eq]
      refine ⟨hk, (List.findIdx_eq hk).2 ⟨by simp [hkid], ?_⟩⟩
      intro j hji
      have hj : j < messages.length := by omega
      simp [hfirst j hj hji]
    have hunfold : hideDownstreamMessages eid messages =
        hideFrom k 0 messages := by
      simp [hideDownstreamMessages, hfind]
    refine ⟨by rw [hunfold, hideFrom_length], ?_⟩
    intro j hj hj2
    have hj2' : j < (hideFrom k 0 messages).length := by
      rw [hideFrom_length]; exact hj
    constructor
    · intro hjk
      simp only [hunfold]
      rw [hideFrom_getElem k messages 0 j hj hj2']
      rw [if_neg (by omega)]
    · intro hkj
      simp only [hunfold]
      rw [hideFrom_getElem k messages 0 j hj hj2']
      rw [if_pos (by omega)]

/-- Witness for C6 on the four-message transcript of Scenario B: editing
`"m2"` (position 1) leaves positions 0 and 1 untouched and hides
positions 2 and 3. -/
theorem hideDownstreamMessages_spec_witness :
    (hideDownstreamMessages "m2" [msgA, msgB, msgC, msgD]).length = 4 ∧
    (hideDownstreamMessages "m2" [msgA, msgB, msgC, msgD]).get
      ⟨1, by decide⟩ = msgB ∧
    (hideDownstreamMessages "m2" [msgA, msgB, msgC, msgD]).get
      ⟨2, by decide⟩ = { msgC with display := some false } := by
  have h := (hideDownstreamMessages_spec "m2" [msgA, msgB, msgC, msgD]).2 1
    (by decide) (by decide) (by decide)
  exact ⟨h.1, (h.2 1 (by decide) (by rw [h.1]; decide)).1 (by decide),
    (h.2 2 (by decide) (by rw [h.1]; decide)).2 (by decide)⟩

/-- Looking up the `versions` field of a message's JSON image yields the
encoded `versions` array exactly when the field is present. -/
theorem jget_versions_encodeMessage (m : Message) :
    jget "versions" (encodeMessage m) =
      m.versions.map (fun vs => Json.arr (vs.map encodeVersion)) := by
  rcases m with ⟨id, role, created, content, display, sendToLLM, versions,
    cvi, pmi⟩
  cases id <;> cases display <;> cases sendToLLM <;> cases versions <;>
    cases cvi <;> cases pmi <;> rfl

/-- Writing back the value a key already holds leaves the field list
unchanged. -/
theorem setField_lookup_self (key : String) (v : Json) :
    ∀ fields : List (String × Json), lookupField key fields = some v →
      setField key v fields = fields := by
  intro fields
  induction fields with
  | nil => intro h; cases h
  | cons kv rest ih =>
    obtain ⟨k, w⟩ := kv
    intro h
    by_cases hk : k = key
    · simp only [lookupField, if_pos hk, Option.some.injEq] at h
      simp [setField, hk, h]
    · simp only [lookupField, if_neg hk] at h
      simp [setField, hk, ih h]

/-- A version record with truthy `versionNumber` and `timestamp` is a fixed
point of `validateMessageVersion` (its `content` and `childMessageIds` are
arrays by construction). -/
theorem validateMessageVersion_encodeVersion (now : Int) (v : MessageVersion)
    (h1 : v.versionNumber ≠ 0) (h2 : v.timestamp ≠ 0) :
    validateMessageVersion now (encodeVersion v) = some (encodeVersion v) := by
  simp [validateMessageVersion, encodeVersion, jget, lookupField, jtruthy,
    h1, h2]

/-- Mapping `validateMessageVersion` over a list of well-formed encoded
versions returns them unchanged. -/
theorem jsArrayMap_validate_encode (now : Int) (vs : List MessageVersion)
    (h : ∀ v ∈ vs, v.versionNumber ≠ 0 ∧ v.timestamp ≠ 0) :
    jsArrayMap (validateMessageVersion now) (vs.map encodeVersion) =
      some (vs.map encodeVersion) := by
  induction vs with
  | nil => rfl
  | cons v rest ih =>
    have hv := h v (List.mem_cons_self v rest)
    simp [jsArrayMap, validateMessageVersion_encodeVersion now v hv.1 hv.2,
      ih (fun w hw => h w (List.mem_cons_of_mem v hw))]

/-- The versions-validation block is the identity on the JSON image of a
well-formed message. -/
theorem validateVersionsField_encodeMessage (now : Int) (m : Message)
    (h : wellFormedMessage m) :
    validateVersionsField now (encodeMessage m) = some (encodeMessage m) := by
  cases hv : m.versions with
  | none =>
    have hjget : jget "versions" (encodeMessage m) = none := by
      rw [jget_versions_encodeMessage, hv]; rfl
    simp [validateVersionsField, hjget]
  | some vs =>
    have hjget : jget "versions" (encodeMessage m) =
        some (Json.arr (vs.map encodeVersion)) := by
      rw [jget_versions_encodeMessage, hv]; rfl
    have hwf : ∀ v ∈ vs, v.versionNumber ≠ 0 ∧ v.timestamp ≠ 0 := by
      have h2 := h.2
      rw [hv] at h2
      exact h2
    have hlook : lookupField "versions" (encodeFields m) =
        some (Json.arr (vs.map encodeVersion)) := hjget
    simp only [validateVersionsField, hjget, jtruthy,
      jsArrayMap_validate_encode now vs hwf, Option.map_some', if_true]
    rw [show jsetField "versions" (Json.arr (vs.map encodeVersion))
        (encodeMessage m) =
      Json.obj (setField "versions" (Json.arr (vs.map encodeVersion))
        (encodeFields m)) from rfl]
    rw [setField_lookup_self "versions" (Json.arr (vs.map encodeVersion))
      (encodeFields m) hlook]
    rfl

/-- C8: serialization round-trips — deserializing the serialized form of a
transcript of well-formed messages returns the transcript (the resulting
runtime values are exactly the JSON images of the input messages, i.e.
deep-equal to the input transcript), including for messages with multiple
versions. -/
theorem deserialize_serialize_roundtrip (now : Int) (t : List Message)
    (h : ∀ m ∈ t, wellFormedMessage m) :
    deserializeMessages now (serializeMessages t) =
      some (t.map serializeMessage) := by
  induction t with
  | nil => rfl
  | cons m rest ih =>
    have hm := h m (List.mem_cons_self m rest)
    have hrest := ih (fun x hx => h x (List.mem_cons_of_mem m hx))
    have hbody : deserializeMessagesBody now (encodeMessage m) =
        some (encodeMessage m) := by
      rw [show deserializeMessagesBody now (encodeMessage m) =
        validateVersionsField now (encodeMessage m) from rfl]
      exact validateVersionsField_encodeMessage now m hm
    have hrest2 : jsArrayMap (deserializeMessagesBody now)
        (rest.map encodeMessage) = some (rest.map serializeMessage) := hrest
    show jsArrayMap (deserializeMessagesBody now)
      (encodeMessage m :: rest.map encodeMessage) =
      some (serializeMessage m :: rest.map serializeMessage)
    simp [jsArrayMap, hbody, hrest2]
    rfl

/-- Witness for C8 on a concrete two-message transcript whose second
message carries two versions. -/
theorem deserialize_serialize_roundtrip_witness :
    deserializeMessages 500 (serializeMessages [msgA, msgV]) =
      some ([msgA, msgV].map serializeMessage) :=
  deserialize_serialize_roundtrip 500 [msgA, msgV] (by
    intro x hx
    simp only [List.mem_cons, List.not_mem_nil, or_false] at hx
    rcases hx with rfl | rfl
    · exact ⟨by decide, trivial⟩
    · exact ⟨by decide,
        by
          show ∀ v ∈ [(⟨1, [⟨"text", "Hi"⟩], 10, []⟩ : MessageVersion),
              ⟨2, [⟨"text", "Hey"⟩], 20, ["m2"]⟩],
            v.versionNumber ≠ 0 ∧ v.timestamp ≠ 0
          decide⟩)

/-- C10: deserialization normalizes version records by truthiness rather
than by field absence: a present-but-falsy `versionNumber` comes back as
`1`, a present-but-falsy `timestamp` comes back as the current time, and a
present non-array `content` or `childMessageIds` comes back as the empty
array — so `deserializeMessage ∘ serializeMessage` is not the identity on a
message carrying such falsy version fields (witnessed at `msgBadVersion`,
whose version has `versionNumber = 0` and `timestamp = 0`). -/
theorem deserializeMessage_normalizes_by_truthiness :
    (∀ (now : Int) (v jvn : Json), jget "versionNumber" v = some jvn →
      jtruthy jvn = false →
      ∃ w, validateMessageVersion now v = some w ∧
        jget "versionNumber" w = some (Json.num 1)) ∧
    (∀ (now : Int) (v jt : Json), jget "timestamp" v = some jt →
      jtruthy jt = false →
      ∃ w, validateMessageVersion now v = some w ∧
        jget "timestamp" w = some (Json.num now)) ∧
    (∀ (now : Int) (v jc : Json), jget "content" v = some jc →
      jisArray jc = false →
      ∃ w, validateMessageVersion now v = some w ∧
        jget "content" w = some (Json.arr [])) ∧
    (∀ (now : Int) (v jc : Json), jget "childMessageIds" v = some jc →
      jisArray jc = false →
      ∃ w, validateMessageVersion now v = some w ∧
        jget "childMessageIds" w = some (Json.arr [])) ∧
    deserializeMessage 777 (serializeMessage msgBadVersion) ≠
      some (serializeMessage msgBadVersion) := by
  refine ⟨?_, ?_, ?_, ?_, ?_⟩
  · intro now v jvn h1 h2
    cases v with
    | obj fields =>
      refine ⟨_, rfl, ?_⟩
      simp only [jget] at h1
      simp [jget, lookupField, h1, h2]
    | null => simp [jget] at h1
    | bool b => simp [jget] at h1
    | num n => simp [jget] at h1
    | str s => simp [jget] at h1
    | arr xs => simp [jget] at h1
  · intro now v jt h1 h2
    cases v with
    | obj fields =>
      refine ⟨_, rfl, ?_⟩
      simp only [jget] at h1
      simp [jget, lookupField, h1, h2]
    | null => simp [jget] at h1
    | bool b => simp [jget] at h1
    | num n => simp [jget] at h1
    | str s => simp [jget] at h1
    | arr xs => simp [jget] at h1
  · intro now v jc h1 h2
    cases v with
    | obj fields =>
      refine ⟨_, rfl, ?_⟩
      simp only [jget] at h1
      cases jc with
      | arr xs => simp [jisArray] at h2
      | null => simp [jget, lookupField, h1]
      | bool b => simp [jget, lookupField, h1]
      | num n => simp [jget, lookupField, h1]
      | str s => simp [jget, lookupField, h1]
      | obj fs => simp [jget, lookupField, h1]
    | null => simp [jget] at h1
    | bool b => simp [jget] at h1
    | num n => simp [jget] at h1
    | str s => simp [jget] at h1
    | arr xs => simp [jget] at h1
  · intro now v jc h1 h2
    cases v with
    | obj fields =>
      refine ⟨_, rfl, ?_⟩
      simp only [jget] at h1
      cases jc with
      | arr xs => simp [jisArray] at h2
      | null => simp [jget, lookupField, h1]
      | bool b => simp [jget, lookupField, h1]
      | num n => simp [jget, lookupField, h1]
      | str s => simp [jget, lookupField, h1]
      | obj fs => simp [jget, lookupField, h1]
    | null => simp [jget] at h1
    | bool b => simp [jget] at h1
    | num n => simp [jget] at h1
    | str s => simp [jget] at h1
    | arr xs => simp [jget] at h1
  · intro hEq
    have h1 : (deserializeMessage 777
        (serializeMessage msgBadVersion)).bind (jget "versions") =
        some (Json.arr [Json.obj
          [("versionNumber", Json.num 1), ("content", Json.arr []),
           ("timestamp", Json.num 777),
           ("childMessageIds", Json.arr [])]]) := rfl
    rw [hEq] at h1
    have h2 : (some (serializeMessage msgBadVersion)).bind
        (jget "versions") =
        some (Json.arr [Json.obj
          [("versionNumber", Json.num 0), ("content", Json.arr []),
           ("timestamp", Json.num 0),
           ("childMessageIds", Json.arr [])]]) := rfl
    rw [h2] at h1
    simp at h1

/-- Witness for C10 at a concrete version record whose `versionNumber` is
the falsy `0`. -/
theorem deserializeMessage_normalizes_by_truthiness_witness :
    ∃ w, validateMessageVersion 5
        (Json.obj [("versionNumber", Json.num 0)]) = some w ∧
      jget "versionNumber" w = some (Json.num 1) :=
  deserializeMessage_normalizes_by_truthiness.1 5
    (Json.obj [("versionNumber", Json.num 0)]) (Json.num 0) rfl rfl

/-- The child-id appending fold of the branch-mode resolver extends its
accumulator with exactly the child ids kept by `filterChildIds`, in
order. -/
theorem foldl_eq_append_filterChildIds (messages : List Message) :
    ∀ (cids : List String) (acc : List String),
      cids.foldl
        (fun path cid =>
          if (messages.any fun m =>
                m.id == some cid && m.display != some false) &&
              !(path.contains cid) then
            path ++ [cid]
          else path) acc = acc ++ filterChildIds messages cids acc := by
  intro cids
  induction cids with
  | nil => intro acc; simp [filterChildIds]
  | cons c cs ih =>
    intro acc
    by_cases hcond : ((messages.any fun m =>
        m.id == some c && m.display != some false) &&
        !(acc.contains c)) = true
    · simp only [List.foldl_cons, if_pos hcond, filterChildIds]
      rw [ih (acc ++ [c])]
      simp
    · simp only [List.foldl_cons, if_neg hcond, filterChildIds]
      exact ih acc

/-- Soundness of the child-id filter: every id it keeps comes from the
child list, names a visible message of the transcript, and was not already
in the path it started from. -/
theorem filterChildIds_sound (messages : List Message) :
    ∀ (cids : List String) (acc : List String),
      ∀ s ∈ filterChildIds messages cids acc,
        s ∈ cids ∧
        (∃ m ∈ messages, m.id = some s ∧ m.display ≠ some false) ∧
        s ∉ acc := by
  intro cids
  induction cids with
  | nil => intro acc s hs; simp [filterChildIds] at hs
  | cons c cs ih =>
    intro acc s hs
    by_cases hcond : ((messages.any fun m =>
        m.id == some c && m.display != some false) &&
        !(acc.contains c)) = true
    · simp only [filterChildIds] at hs
      rw [if_pos hcond] at hs
      rcases List.mem_cons.mp hs with rfl | hs2
      · simp only [Bool.and_eq_true, Bool.not_eq_eq_eq_not,
          Bool.not_true, List.any_eq_true] at hcond
        obtain ⟨⟨m, hm, hmprop⟩, hnotin⟩ := hcond
        simp only [Bool.and_eq_true, beq_iff_eq, bne_iff_ne] at hmprop
        refine ⟨List.mem_cons_self _ _, ⟨m, hm, hmprop.1, hmprop.2⟩, ?_⟩
        intro hmem
        rw [show acc.contains s = List.elem s acc from rfl] at hnotin
        rw [List.elem_eq_true_of_mem hmem] at hnotin
        cases hnotin
      · have hp := ih (acc ++ [c]) s hs2
        exact ⟨List.mem_cons_of_mem _ hp.1, hp.2.1,
          fun hmem => hp.2.2 (List.mem_append_left _ hmem)⟩
    · simp only [filterChildIds] at hs
      rw [if_neg hcond] at hs
      have hp := ih acc s hs
      exact ⟨List.mem_cons_of_mem _ hp.1, hp.2⟩

/-- C2 (branch mode, spec-modelled): with a valid edited-message id (first
occurrence at position `k`) and a legal selected version index, the
resolver returns exactly the display-filtered prefix up to and including
the edited message, followed by the selected version's `childMessageIds`
in recorded order filtered to ids that exist and are visible in the
transcript and are not already in the path; and, when transcript ids are
unique, no id of a message positioned after the edited message appears
unless it is one of the selected version's `childMessageIds`. -/
theorem computeActiveVersionPathSpec_branch_mode
    (messages : List Message) (eid : String) (si : Int) (k : Nat)
    (edited : Message) (vs : List MessageVersion) (cv : MessageVersion)
    (hfind : messages.findIdx? (fun msg => msg.id == some eid) = some k)
    (hedited : messages[k]? = some edited)
    (hvs : edited.versions = some vs)
    (hsi : 0 ≤ si ∧ si < (vs.length : Int))
    (hcv : vs[si.toNat]? = some cv)
    (hnodup : (messages.filterMap Message.id).Nodup) :
    computeActiveVersionPathSpec messages (some eid) (some si) =
      ((messages.take (k + 1)).filterMap
        (fun m => if m.display != some false then m.id else none)) ++
        filterChildIds messages cv.childMessageIds
          ((messages.take (k + 1)).filterMap
            (fun m => if m.display != some false then m.id else none)) ∧
    (∀ s ∈ filterChildIds messages cv.childMessageIds
        ((messages.take (k + 1)).filterMap
          (fun m => if m.display != some false then m.id else none)),
      s ∈ cv.childMessageIds ∧
      (∃ m ∈ messages, m.id = some s ∧ m.display ≠ some false) ∧
      s ∉ (messages.take (k + 1)).filterMap
        (fun m => if m.display != some false then m.id else none)) ∧
    ∀ j (hj : j < messages.length), k < j → ∀ s,
      messages[j].id = some s → s ∉ cv.childMessageIds →
      s ∉ computeActiveVersionPathSpec messages (some eid) (some si) := by
  have hlt : si.toNat < vs.length := by omega
  have hgetcv : vs.get ⟨si.toNat, hlt⟩ = cv := by
    have h2 := List.getElem?_eq_getElem hlt
    rw [h2] at hcv
    exact Option.some.injEq _ _ |>.mp hcv
  have hunfold : computeActiveVersionPathSpec messages (some eid) (some si) =
      cv.childMessageIds.foldl
        (fun path cid =>
          if (messages.any fun m =>
                m.id == some cid && m.display != some false) &&
              !(path.contains cid) then
            path ++ [cid]
          else path)
        ((messages.take (k + 1)).filterMap
          (fun m => if m.display != some false then m.id else none)) := by
    simp only [computeActiveVersionPathSpec, hfind, hedited, hvs]
    rw [dif_pos hsi]
    rw [hgetcv]
  have heq : computeActiveVersionPathSpec messages (some eid) (some si) =
      ((messages.take (k + 1)).filterMap
        (fun m => if m.display != some false then m.id else none)) ++
        filterChildIds messages cv.childMessageIds
          ((messages.take (k + 1)).filterMap
            (fun m => if m.display != some false then m.id else none)) := by
    rw [hunfold]
    exact foldl_eq_append_filterChildIds messages cv.childMessageIds _
  refine ⟨heq, filterChildIds_sound messages cv.childMessageIds _, ?_⟩
  intro j hj hkj s hsid hsnotchild hmem
  rw [heq] at hmem
  rcases List.mem_append.mp hmem with hmem | hmem
  · -- s came from the prefix: its id also occurs at a position ≤ k,
    -- contradicting id uniqueness with the occurrence at position j > k
    have hs_take : s ∈ (messages.take (k + 1)).filterMap Message.id := by
      obtain ⟨m, hm, hif⟩ := List.mem_filterMap.mp hmem
      by_cases hd : (m.display != some false) = true
      · rw [if_pos hd] at hif
        exact List.mem_filterMap.mpr ⟨m, hm, hif⟩
      · rw [if_neg hd] at hif
        cases hif
    have hdj : j - (k + 1) < (messages.drop (k + 1)).length := by
      rw [List.length_drop]
      omega
    have hidx : k + 1 + (j - (k + 1)) = j := by omega
    have helem : (messages.drop (k + 1))[j - (k + 1)] = messages[j] := by
      rw [List.getElem_drop]
      simp only [hidx]
    have hx : messages[j] ∈ messages.drop (k + 1) := by
      rw [← helem]
      exact List.getElem_mem hdj
    have hs_drop : s ∈ (messages.drop (k + 1)).filterMap Message.id :=
      List.mem_filterMap.mpr ⟨messages[j], hx, hsid⟩
    rw [← List.take_append_drop (k + 1) messages,
      List.filterMap_append, List.nodup_append] at hnodup
    exact hnodup.2.2 hs_take hs_drop
  · exact hsnotchild (filterChildIds_sound messages cv.childMessageIds _
      s hmem).1

/-- Witness for C2 on a concrete three-message transcript whose first
message was edited (two versions, the selected second version owning child
id `"m2"`). -/
theorem computeActiveVersionPathSpec_branch_mode_witness :
    computeActiveVersionPathSpec [msgV, msgB, msgC] (some "m1")
        (some 1) =
      (([msgV, msgB, msgC].take (0 + 1)).filterMap
        (fun m => if m.display != some false then m.id else none)) ++
        filterChildIds [msgV, msgB, msgC]
          (⟨2, [⟨"text", "Hey"⟩], 20, ["m2"]⟩ :
            MessageVersion).childMessageIds
          (([msgV, msgB, msgC].take (0 + 1)).filterMap
            (fun m => if m.display != some false then m.id else none)) ∧
    (∀ s ∈ filterChildIds [msgV, msgB, msgC]
        (⟨2, [⟨"text", "Hey"⟩], 20, ["m2"]⟩ :
          MessageVersion).childMessageIds
        (([msgV, msgB, msgC].take (0 + 1)).filterMap
          (fun m => if m.display != some false then m.id else none)),
      s ∈ (⟨2, [⟨"text", "Hey"⟩], 20, ["m2"]⟩ :
        MessageVersion).childMessageIds ∧
      (∃ m ∈ [msgV, msgB, msgC], m.id = some s ∧
        m.display ≠ some false) ∧
      s ∉ ([msgV, msgB, msgC].take (0 + 1)).filterMap
        (fun m => if m.display != some false then m.id else none)) ∧
    ∀ j (hj : j < [msgV, msgB, msgC].length), 0 < j → ∀ s,
      [msgV, msgB, msgC][j].id = some s →
      s ∉ (⟨2, [⟨"text", "Hey"⟩], 20, ["m2"]⟩ :
        MessageVersion).childMessageIds →
      s ∉ computeActiveVersionPathSpec [msgV, msgB, msgC] (some "m1")
        (some 1) :=
  computeActiveVersionPathSpec_branch_mode [msgV, msgB, msgC] "m1" 1 0 msgV
    [⟨1, [⟨"text", "Hi"⟩], 10, []⟩, ⟨2, [⟨"text", "Hey"⟩], 20, ["m2"]⟩]
    ⟨2, [⟨"text", "Hey"⟩], 20, ["m2"]⟩
    rfl rfl rfl (by decide) rfl (by decide)
